import Mathlib

/-!
Verification of the sampling-control subsystem of `clsampler` (`src/__init__.py`).

The embedding below translates the Python source into Lean:

* Floating-point scores and weights are modelled as exact rationals (`ℚ`).
* The mutable Python objects passed to `BaseSampler.better_sample` are modelled
  with an explicit heap: a sample is a reference (index) into a list of values,
  `copy.deepcopy` allocates a fresh cell holding the current value, and mutating
  a cell through one reference is visible through every alias of that reference.
* `numpy.exp` composed with the annealing power (`np.power(np.exp(x), temp)`)
  is an abstract strictly positive function parameter `φ : ℚ → ℚ`; the source's
  `lognormalize` only relies on its positivity.
* Python's three distinct return behaviours of `better_sample`
  (`return` / `return True` / `return False`) become `Option Bool`
  (`none` / `some true` / `some false`).
* `sample`'s `random.random()` draw is an explicit parameter `r`; raising an
  exception becomes `Except.error`.  Dividing an all-zero weight vector by its
  zero sum yields NaN entries in numpy, and `nan > r` is `False` for every `r`;
  rational division by zero yields `0`, and `0 > r` is `False` for every
  `0 ≤ r`, so for draws in `[0, 1)` the two semantics agree observably.
-/

namespace CLSampler

/-- Mutable sample values live in a heap of rational cells; a Python object
reference is an index into the heap. -/
abbrev Heap := List ℚ

/-- The stochastic-search state of `BaseSampler` (`__init__`, lines 87-97),
restricted to the fields the sampling-control logic reads or writes, plus the
heap of sample objects.  `best_ref`/`best_lpm`/`best_llk` are the three
components of the Python triple `self.best_sample`, initialized
`(None, None, None)`. -/
structure SState where
  best_ref : Option Nat
  best_lpm : Option ℚ
  best_llk : Option ℚ
  logprob_model : ℚ
  loglik_data : ℚ
  best_diff : List ℚ
  no_improv : Nat
  search_tolerance : Nat
  search_data_fit_only : Bool
  annealing : Bool
  annealing_temp : ℚ
  sample_size : Nat
  heap : Heap
  deriving DecidableEq, Repr

/-- In-place mutation of the caller-owned sample object at reference `r`. -/
def mutate (r : Nat) (v : ℚ) (s : SState) : SState :=
  { s with heap := s.heap.set r v }

/-- `BaseSampler._logprob` of the base class (lines 193-197): returns the
neutral score `(0, 0)`; it raises nothing. -/
def base_logprob : ℚ → ℚ × ℚ := fun _ => (0, 0)

/-- `BaseSampler.better_sample` (lines 158-184).  `lp` is the `_logprob`
callback (a function of the sample's current value), `r` the reference to the
caller's working sample.  Returns the Python return value and the new state:

* no best recorded yet (line 164): store the reference itself (line 165 stores
  `sample`, not a copy) with the new scores, bare `return` (`none`);
* improvement (`better > 0`, line 175): reset `no_improv`, append the delta,
  allocate a deep copy of the sample's current value at a fresh heap cell and
  store that reference (line 179 stores `copy.deepcopy(sample)`), `return True`;
* otherwise: increment `no_improv`, `return False`. -/
def better_sample (lp : ℚ → ℚ × ℚ) (r : Nat) (s : SState) : Option Bool × SState :=
  let v := s.heap.getD r 0
  let nlpm := (lp v).1
  let nllk := (lp v).2
  match s.best_ref with
  | none =>
      (none, { s with best_ref := some r, best_lpm := some nlpm, best_llk := some nllk,
                      logprob_model := nlpm, loglik_data := nllk })
  | some _ =>
      let better :=
        if s.search_data_fit_only then nllk - s.best_llk.getD 0
        else nlpm + nllk - (s.best_lpm.getD 0 + s.best_llk.getD 0)
      if 0 < better then
        (some true,
          { s with no_improv := 0,
                   best_diff := s.best_diff ++ [better],
                   logprob_model := nlpm, loglik_data := nllk,
                   heap := s.heap ++ [v],
                   best_ref := some s.heap.length,
                   best_lpm := some nlpm, best_llk := some nllk })
      else
        (some false, { s with no_improv := s.no_improv + 1 })

/-- Sequential application of `better_sample` to a list of sample references,
collecting the Python return values. -/
def runCalls (lp : ℚ → ℚ × ℚ) : List Nat → SState → List (Option Bool) × SState
  | [], s => ([], s)
  | r :: rs, s =>
      let p := better_sample lp r s
      let q := runCalls lp rs p.2
      (p.1 :: q.1, q.2)

/-- `BaseSampler.no_improvement` (lines 186-191): `False` on empty
`best_diff`, else `True` exactly when `no_improv > search_tolerance`. -/
def no_improvement (s : SState) : Bool :=
  if s.best_diff.length = 0 then false
  else if s.search_tolerance < s.no_improv then true
  else false

/-- `BaseSampler.set_temperature` (lines 135-151), with the float literals
`0.2`, `0.3`, `0.4`, `0.5` read as exact rationals. -/
def set_temperature (s : SState) (iteration : Nat) : SState :=
  if s.annealing = false then { s with annealing_temp := 1 }
  else if (iteration : ℚ) < (s.sample_size : ℚ) * (2/10) then { s with annealing_temp := 2/10 }
  else if (iteration : ℚ) < (s.sample_size : ℚ) * (3/10) then { s with annealing_temp := 4/10 }
  else if (iteration : ℚ) < (s.sample_size : ℚ) * (4/10) then { s with annealing_temp := 6/10 }
  else if (iteration : ℚ) < (s.sample_size : ℚ) * (5/10) then { s with annealing_temp := 8/10 }
  else { s with annealing_temp := 1 }

/-- `lognormalize` (lines 11-20).  `φ` abstracts the composition
`np.power(np.exp(·), temp)` applied entrywise after subtracting the maximum;
for real `exp` and `temp > 0` it is strictly positive. -/
def lognormalize (φ : ℚ → ℚ) (x : List ℚ) : List ℚ :=
  let m := x.foldr max (x.getD 0 0)
  let xp := x.map (fun xi => φ (xi - m))
  xp.map (fun v => v / xp.sum)

/-- The inner `for i in xrange(n)` loop of `sample` (lines 30-36) over the
paired outcomes and normalized weights, carrying the running `total`.  The
final `return a[i]` reuses the last loop index, so an empty loop leaves `i`
unbound (`none`, a `NameError` in Python) and a singleton returns its element
whether or not its cumulative weight exceeded `r`. -/
def cdfLoop : List (α × ℚ) → ℚ → ℚ → Option α
  | [], _, _ => none
  | [(x, _)], _, _ => some x
  | (x, w) :: xs, r, total =>
      if total + w > r then some x else cdfLoop xs r (total + w)

/-- `sample` (lines 22-36): inverse-CDF draw of one element of `a`
proportional to weights `p`, where `r` is the uniform draw `random.random()`.
A length mismatch raises (`Exception('a != p')`). -/
def sample (a : List α) (p : List ℚ) (r : ℚ) : Except String α :=
  if a.length ≠ p.length then Except.error "a != p"
  else
    let q := p.map (fun w => w / p.sum)
    match cdfLoop (a.zip q) r 0 with
    | some x => Except.ok x
    | none => Except.error "NameError"

/-- The score delta (`better`, lines 171-174) computed by `better_sample`
when a best sample is already recorded: likelihood-only when
`search_data_fit_only` is set, otherwise joint model + likelihood. -/
def bsDelta (lp : ℚ → ℚ × ℚ) (r : Nat) (s : SState) : ℚ :=
  let v := s.heap.getD r 0
  if s.search_data_fit_only then (lp v).2 - s.best_llk.getD 0
  else (lp v).1 + (lp v).2 - (s.best_lpm.getD 0 + s.best_llk.getD 0)

/-- Modelled from the spec's words for `sample`: the index of the first
outcome whose cumulative weight strictly exceeds the draw `r`, or the index of
the last outcome when no cumulative sum exceeds `r` (one element of weight `w`
exceeds `r` exactly when `r < w` after discounting the weights already
accumulated). -/
def firstExceedIdx : List ℚ → ℚ → Nat
  | [], _ => 0
  | w :: ws, r =>
      if r < w then 0
      else
        match ws with
        | [] => 0
        | _ :: _ => firstExceedIdx ws (r - w) + 1

/-- A concrete `BaseSampler` state fresh out of `__init__` with the default
arguments (`sample_size=1000`, `search_tolerance=100`), whose heap holds one
working sample with value `5` at reference `0`. -/
def s0 : SState :=
  { best_ref := none, best_lpm := none, best_llk := none,
    logprob_model := 0, loglik_data := 0,
    best_diff := [], no_improv := 0,
    search_tolerance := 100, search_data_fit_only := false,
    annealing := false, annealing_temp := 1,
    sample_size := 1000, heap := [5] }

/-- A state with an already-recorded best sample: best is reference `0` with
scores `(-1, -1)`, and the heap holds that one cell with value `5`. -/
def s1 : SState :=
  { s0 with best_ref := some 0, best_lpm := some (-1), best_llk := some (-1) }

/-- An annealing-enabled state with a planned budget of 100 iterations. -/
def sAnn : SState :=
  { s0 with annealing := true, sample_size := 100 }

/-! ### Branch equations for `better_sample` -/

theorem better_sample_eq_none (lp : ℚ → ℚ × ℚ) (r : Nat) (s : SState)
    (h : s.best_ref = none) :
    better_sample lp r s =
      (none,
       { s with best_ref := some r,
                best_lpm := some (lp (s.heap.getD r 0)).1,
                best_llk := some (lp (s.heap.getD r 0)).2,
                logprob_model := (lp (s.heap.getD r 0)).1,
                loglik_data := (lp (s.heap.getD r 0)).2 }) := by
  simp only [better_sample, h]

theorem better_sample_eq_true (lp : ℚ → ℚ × ℚ) (r : Nat) (s : SState) (i : Nat)
    (h : s.best_ref = some i) (hd : 0 < bsDelta lp r s) :
    better_sample lp r s =
      (some true,
       { s with no_improv := 0,
                best_diff := s.best_diff ++ [bsDelta lp r s],
                logprob_model := (lp (s.heap.getD r 0)).1,
                loglik_data := (lp (s.heap.getD r 0)).2,
                heap := s.heap ++ [s.heap.getD r 0],
                best_ref := some s.heap.length,
                best_lpm := some (lp (s.heap.getD r 0)).1,
                best_llk := some (lp (s.heap.getD r 0)).2 }) := by
  simp only [better_sample, bsDelta, h] at hd ⊢
  rw [if_pos hd]

theorem better_sample_eq_false (lp : ℚ → ℚ × ℚ) (r : Nat) (s : SState) (i : Nat)
    (h : s.best_ref = some i) (hd : ¬ 0 < bsDelta lp r s) :
    better_sample lp r s = (some false, { s with no_improv := s.no_improv + 1 }) := by
  simp only [better_sample, bsDelta, h] at hd ⊢
  rw [if_neg hd]

theorem better_sample_fst_true (lp : ℚ → ℚ × ℚ) (r : Nat) (s : SState)
    (h : (better_sample lp r s).1 = some true) :
    ∃ i, s.best_ref = some i ∧ 0 < bsDelta lp r s := by
  rcases hbr : s.best_ref with _ | i
  · rw [better_sample_eq_none lp r s hbr] at h
    exact absurd h (by simp)
  · by_cases hd : 0 < bsDelta lp r s
    · exact ⟨i, rfl, hd⟩
    · rw [better_sample_eq_false lp r s i hbr hd] at h
      exact absurd h (by simp)

theorem better_sample_fst_false (lp : ℚ → ℚ × ℚ) (r : Nat) (s : SState)
    (h : (better_sample lp r s).1 = some false) :
    (better_sample lp r s).2 = { s with no_improv := s.no_improv + 1 } := by
  rcases hbr : s.best_ref with _ | i
  · rw [better_sample_eq_none lp r s hbr] at h
    exact absurd h (by simp)
  · by_cases hd : 0 < bsDelta lp r s
    · rw [better_sample_eq_true lp r s i hbr hd] at h
      exact absurd h (by simp)
    · rw [better_sample_eq_false lp r s i hbr hd, hbr]

/-! ### Claim C1 -/

/-- Claim C1, counterexample: on the default fresh state, the very first
`better_sample` call returns `none` (a bare Python `return`), not the value
`False` the claim asserts. -/
theorem initial_update_not_false :
    (better_sample base_logprob 0 s0).1 = none ∧
    ¬ (better_sample base_logprob 0 s0).1 = some false := by
  constructor <;> decide

/-- Claim C1 (amended): with no best sample recorded yet, `better_sample`
stores the sample reference and its score as the initial best record and
returns no value (Python `None`, modelled `none`) — a falsy result signalling
no improvement, but not the literal `False`. -/
theorem initial_update_stores_returns_none (lp : ℚ → ℚ × ℚ) (r : Nat) (s : SState)
    (h : s.best_ref = none) :
    (better_sample lp r s).1 = none ∧
    (better_sample lp r s).2.best_ref = some r ∧
    (better_sample lp r s).2.best_lpm = some (lp (s.heap.getD r 0)).1 ∧
    (better_sample lp r s).2.best_llk = some (lp (s.heap.getD r 0)).2 := by
  rw [better_sample_eq_none lp r s h]
  exact ⟨rfl, rfl, rfl, rfl⟩

/-- Witness for the amended claim C1 at the concrete fresh state `s0`. -/
theorem initial_update_stores_returns_none_w :
    (better_sample base_logprob 0 s0).1 = none ∧
    (better_sample base_logprob 0 s0).2.best_ref = some 0 ∧
    (better_sample base_logprob 0 s0).2.best_lpm = some (base_logprob (s0.heap.getD 0 0)).1 ∧
    (better_sample base_logprob 0 s0).2.best_llk = some (base_logprob (s0.heap.getD 0 0)).2 :=
  initial_update_stores_returns_none base_logprob 0 s0 rfl

/-! ### Claim C2 -/

/-- Setting a cell of a list extended by one element, at an in-range index,
never disturbs the appended element. -/
theorem set_append_getD (l : List ℚ) (r : Nat) (v a : ℚ) (h : r < l.length) :
    ((l ++ [a]).set r v).getD l.length 0 = a := by
  rw [List.set_append_left _ _ h]
  have hlen : l.length = (l.set r v).length := by simp
  rw [hlen]
  simp [List.getD_eq_getElem?_getD, List.getElem?_append_right]

/-- Claim C2, counterexample: the initializing `better_sample` call stores the
working sample itself (line 165 has no `deepcopy`), so mutating the working
sample afterwards changes the stored best: the best cell held `5` when stored
and reads `7` after the caller writes `7` through its own reference. -/
theorem initial_store_aliases_sample :
    s0.heap.getD 0 0 = 5 ∧
    (mutate 0 7 (better_sample base_logprob 0 s0).2).heap.getD
      ((better_sample base_logprob 0 s0).2.best_ref.getD 0) 0 = 7 := by
  constructor
  · rfl
  · simp [better_sample, mutate, s0]

/-- Claim C2 (amended): an improving `better_sample` call stores a deep copy —
the new best lives at a fresh reference distinct from the caller's, so
mutating the working sample afterwards leaves the stored best value exactly
what it was at update time.  (The initializing call, by contrast, aliases.) -/
theorem improving_update_copies (lp : ℚ → ℚ × ℚ) (r : Nat) (v : ℚ) (s : SState)
    (hr : r < s.heap.length)
    (himp : (better_sample lp r s).1 = some true) :
    (mutate r v (better_sample lp r s).2).heap.getD
      ((better_sample lp r s).2.best_ref.getD 0) 0 = s.heap.getD r 0 ∧
    (better_sample lp r s).2.best_ref ≠ some r := by
  obtain ⟨i, hbr, hd⟩ := better_sample_fst_true lp r s himp
  rw [better_sample_eq_true lp r s i hbr hd]
  refine ⟨?_, ?_⟩
  · simpa [mutate] using set_append_getD s.heap r v (s.heap.getD r 0) hr
  · simp only [ne_eq, Option.some.injEq]
    intro hcontra
    omega

/-- Witness for the amended claim C2: a concrete improving update on `s1`
(best score `(-1, -1)`, new score `(5, 5)`), followed by writing `7` into the
caller's sample; the stored best still reads the update-time value `5`. -/
theorem improving_update_copies_w :
    (mutate 0 7 (better_sample (fun q => (q, q)) 0 s1).2).heap.getD
      ((better_sample (fun q => (q, q)) 0 s1).2.best_ref.getD 0) 0 = s1.heap.getD 0 0 ∧
    (better_sample (fun q => (q, q)) 0 s1).2.best_ref ≠ some 0 :=
  improving_update_copies (fun q => (q, q)) 0 7 s1 (by simp [s1, s0])
    (by simp [better_sample, s1, s0]; norm_num)

/-! ### Claim C3 -/

/-- Claim C3, counterexample: calling `better_sample` on a sampler whose
`_logprob` was never overridden does not fail: the base `_logprob` silently
supplies the neutral score `(0, 0)`, which is stored as the initial best. -/
theorem unconfigured_update_no_error :
    (better_sample base_logprob 0 s0).2.best_lpm = some 0 ∧
    (better_sample base_logprob 0 s0).2.best_llk = some 0 := by
  constructor <;> decide

/-- Claim C3 (amended): calling the update on a tracker whose scoring function
was not configured raises nothing; it proceeds with the base `_logprob`'s
default score `(0, 0)`: the initializing call records score `(0, 0)`, and
every later call against a `(0, 0)` best computes delta `0` and reports a
non-improvement (`some false`). -/
theorem unconfigured_update_default_score (r : Nat) (s : SState) :
    (s.best_ref = none →
      (better_sample base_logprob r s).1 = none ∧
      (better_sample base_logprob r s).2.best_lpm = some 0 ∧
      (better_sample base_logprob r s).2.best_llk = some 0) ∧
    (∀ i, s.best_ref = some i → s.best_lpm = some 0 → s.best_llk = some 0 →
      (better_sample base_logprob r s).1 = some false) := by
  constructor
  · intro h
    rw [better_sample_eq_none base_logprob r s h]
    exact ⟨rfl, rfl, rfl⟩
  · intro i h hm hk
    have hd : ¬ 0 < bsDelta base_logprob r s := by
      simp [bsDelta, base_logprob, hm, hk]
    rw [better_sample_eq_false base_logprob r s i h hd]

/-- Witness for the amended claim C3: the fresh default state, and the state
it produces, exercised at concrete inputs. -/
theorem unconfigured_update_default_score_w :
    ((better_sample base_logprob 0 s0).1 = none ∧
     (better_sample base_logprob 0 s0).2.best_lpm = some 0 ∧
     (better_sample base_logprob 0 s0).2.best_llk = some 0) ∧
    (better_sample base_logprob 0
        { s0 with best_ref := some 0, best_lpm := some 0, best_llk := some 0 }).1 =
      some false :=
  ⟨(unconfigured_update_default_score 0 s0).1 rfl,
   (unconfigured_update_default_score 0
      { s0 with best_ref := some 0, best_lpm := some 0, best_llk := some 0 }).2
     0 rfl rfl rfl⟩

/-! ### Claim C5 -/

/-- Claim C5: `set_temperature` yields `1` whenever annealing is disabled, and
otherwise the five-step schedule `0.2 / 0.4 / 0.6 / 0.8 / 1.0` on the bands
`[0, 0.2·n)`, `[0.2·n, 0.3·n)`, `[0.3·n, 0.4·n)`, `[0.4·n, 0.5·n)`,
`[0.5·n, ∞)` of the budget `n = sample_size`, each upper bound exclusive; the
concrete conjuncts check the spec's examples and that iterations exactly at a
threshold fall into the next band. -/
theorem set_temperature_step (s : SState) (iteration : Nat) :
    ((set_temperature s iteration).annealing_temp =
      if s.annealing = false then 1
      else if (iteration : ℚ) < (2/10) * (s.sample_size : ℚ) then 2/10
      else if (iteration : ℚ) < (3/10) * (s.sample_size : ℚ) then 4/10
      else if (iteration : ℚ) < (4/10) * (s.sample_size : ℚ) then 6/10
      else if (iteration : ℚ) < (5/10) * (s.sample_size : ℚ) then 8/10
      else 1) ∧
    (set_temperature sAnn 10).annealing_temp = 2/10 ∧
    (set_temperature sAnn 25).annealing_temp = 4/10 ∧
    (set_temperature sAnn 60).annealing_temp = 1 ∧
    (set_temperature sAnn 20).annealing_temp = 4/10 ∧
    (set_temperature sAnn 30).annealing_temp = 6/10 ∧
    (set_temperature sAnn 40).annealing_temp = 8/10 ∧
    (set_temperature sAnn 50).annealing_temp = 1 ∧
    (set_temperature s0 123).annealing_temp = 1 := by
  refine ⟨?_, by norm_num [set_temperature, sAnn, s0], by norm_num [set_temperature, sAnn, s0],
    by norm_num [set_temperature, sAnn, s0], by norm_num [set_temperature, sAnn, s0],
    by norm_num [set_temperature, sAnn, s0], by norm_num [set_temperature, sAnn, s0],
    by norm_num [set_temperature, sAnn, s0], by norm_num [set_temperature, s0]⟩
  simp only [set_temperature, mul_comm]
  split_ifs <;> rfl

/-! ### Claim C6 -/

/-- Claim C6: `no_improvement` answers `False` on an empty improvement
history regardless of the counter, and on a non-empty history answers `True`
exactly when the no-improvement counter strictly exceeds the tolerance. -/
theorem no_improvement_iff (s : SState) :
    no_improvement s = true ↔ s.best_diff ≠ [] ∧ s.search_tolerance < s.no_improv := by
  unfold no_improvement
  split_ifs with h1 h2 <;> simp_all [List.length_eq_zero]

/-! ### Claim C8 -/

/-- A run of `better_sample` calls that all report `False` adds its length to
the no-improvement counter and leaves the improvement history untouched. -/
theorem runCalls_all_false (lp : ℚ → ℚ × ℚ) (cs : List Nat) (t : SState)
    (h : (runCalls lp cs t).1 = List.replicate cs.length (some false)) :
    (runCalls lp cs t).2.no_improv = t.no_improv + cs.length ∧
    (runCalls lp cs t).2.best_diff = t.best_diff := by
  induction cs generalizing t with
  | nil => simp [runCalls]
  | cons c cs ih =>
    simp only [runCalls, List.length_cons, List.replicate_succ, List.cons.injEq] at h ⊢
    obtain ⟨h1, h2⟩ := h
    have hstep := better_sample_fst_false lp c t h1
    rw [hstep] at h2 ⊢
    obtain ⟨ha, hb⟩ := ih _ h2
    rw [ha, hb]
    constructor
    · show t.no_improv + 1 + cs.length = t.no_improv + (cs.length + 1)
      omega
    · rfl

/-- One `better_sample` call never shortens the improvement history. -/
theorem better_sample_diff_le (lp : ℚ → ℚ × ℚ) (r : Nat) (s : SState) :
    s.best_diff.length ≤ (better_sample lp r s).2.best_diff.length := by
  rcases hbr : s.best_ref with _ | i
  · rw [better_sample_eq_none lp r s hbr]
  · by_cases hd : 0 < bsDelta lp r s
    · rw [better_sample_eq_true lp r s i hbr hd]
      simp
    · rw [better_sample_eq_false lp r s i hbr hd]

/-- No sequence of `better_sample` calls ever shortens the history. -/
theorem runCalls_diff_mono (lp : ℚ → ℚ × ℚ) (cs : List Nat) (t : SState) :
    t.best_diff.length ≤ (runCalls lp cs t).2.best_diff.length := by
  induction cs generalizing t with
  | nil => exact le_rfl
  | cons c cs ih =>
    simp only [runCalls]
    exact le_trans (better_sample_diff_le lp c t) (ih _)

/-- Claim C8: an improving `better_sample` call resets the no-improvement
counter to 0 and appends its strictly positive delta to the improvement
history; `k` consecutive non-improving calls then leave the counter at exactly
`k`; and no sequence of calls ever shrinks the history. -/
theorem search_counter_spec (lp : ℚ → ℚ × ℚ) (r : Nat) (rs : List Nat) (s : SState)
    (himp : (better_sample lp r s).1 = some true)
    (hrest : (runCalls lp rs (better_sample lp r s).2).1 =
      List.replicate rs.length (some false)) :
    (better_sample lp r s).2.no_improv = 0 ∧
    (∃ d, 0 < d ∧ (better_sample lp r s).2.best_diff = s.best_diff ++ [d]) ∧
    (runCalls lp rs (better_sample lp r s).2).2.no_improv = rs.length ∧
    ∀ (t : SState) (cs : List Nat),
      t.best_diff.length ≤ (runCalls lp cs t).2.best_diff.length := by
  obtain ⟨i, hbr, hd⟩ := better_sample_fst_true lp r s himp
  have heq := better_sample_eq_true lp r s i hbr hd
  refine ⟨by rw [heq], ⟨bsDelta lp r s, hd, by rw [heq]⟩, ?_,
    fun t cs => runCalls_diff_mono lp cs t⟩
  have hcnt := (runCalls_all_false lp rs (better_sample lp r s).2 hrest).1
  rw [hcnt, heq]
  simp

/-- Witness for claim C8: on `s1`, one improving call (delta `12`) then two
non-improving calls leave the counter at `2`. -/
theorem search_counter_spec_w :
    (better_sample (fun q => (q, q)) 0 s1).2.no_improv = 0 ∧
    (∃ d, 0 < d ∧
      (better_sample (fun q => (q, q)) 0 s1).2.best_diff = s1.best_diff ++ [d]) ∧
    (runCalls (fun q => (q, q)) [0, 0]
      (better_sample (fun q => (q, q)) 0 s1).2).2.no_improv = 2 ∧
    ∀ (t : SState) (cs : List Nat),
      t.best_diff.length ≤ (runCalls (fun q => (q, q)) cs t).2.best_diff.length :=
  search_counter_spec (fun q => (q, q)) 0 [0, 0] s1
    (by simp [better_sample, s1, s0]; norm_num)
    (by norm_num [runCalls, better_sample, s1, s0, List.replicate])

/-! ### Claim C7 -/

/-- The CDF loop of `sample` returns the outcome at the first index whose
cumulative weight strictly exceeds the draw (the accumulated total `t` having
already been discounted), and the last outcome when no cumulative sum does. -/
theorem cdfLoop_eq_firstExceedIdx {α : Type} (x : α) (a : List α) (q : List ℚ) (r t : ℚ)
    (hlen : a.length = q.length) (hne : a ≠ []) :
    cdfLoop (a.zip q) r t = some (a.getD (firstExceedIdx q (r - t)) x) := by
  induction a generalizing q t with
  | nil => exact absurd rfl hne
  | cons y ys ih =>
    cases q with
    | nil => simp at hlen
    | cons w ws =>
      cases ys with
      | nil =>
        cases ws with
        | nil =>
          simp only [List.zip_cons_cons, List.zip_nil_left, cdfLoop, firstExceedIdx]
          split <;> rfl
        | cons w2 ws2 => simp at hlen
      | cons z zs =>
        cases ws with
        | nil => simp at hlen
        | cons w2 ws2 =>
          have hlen2 : (z :: zs).length = (w2 :: ws2).length := by simpa using hlen
          have hrec := ih (w2 :: ws2) (t + w) hlen2 (by simp)
          by_cases hc : r < t + w
          · have hc2 : r - t < w := by linarith
            simp only [List.zip_cons_cons, cdfLoop, firstExceedIdx, gt_iff_lt,
              if_pos hc, if_pos hc2, List.getD_cons_zero]
          · have hc2 : ¬ r - t < w := by intro hlt; exact hc (by linarith)
            simp only [List.zip_cons_cons, cdfLoop, firstExceedIdx, gt_iff_lt,
              if_neg hc, if_neg hc2, List.getD_cons_succ]
            rw [show r - (t + w) = r - t - w by ring] at hrec
            simpa using hrec

/-- Claim C7: with equal-length inputs, a non-empty outcome list,
non-negative not-all-zero weights and a draw `r ∈ [0, 1)`, `sample` returns
the outcome at the first index whose cumulative normalized weight strictly
exceeds `r` (falling back to the last outcome when none does); in particular
weights `[1,0,0]` always select the first outcome and `[0,0,1]` the third. -/
theorem sample_inverse_cdf :
    (∀ (α : Type) (y : α) (ys : List α) (p : List ℚ) (r : ℚ),
      (y :: ys).length = p.length → (∀ w ∈ p, 0 ≤ w) → 0 < p.sum → 0 ≤ r → r < 1 →
      sample (y :: ys) p r =
        Except.ok ((y :: ys).getD (firstExceedIdx (p.map (fun w => w / p.sum)) r) y)) ∧
    (∀ (α : Type) (u v z : α) (r : ℚ), 0 ≤ r → r < 1 →
      sample [u, v, z] [1, 0, 0] r = Except.ok u ∧
      sample [u, v, z] [0, 0, 1] r = Except.ok z) := by
  constructor
  · intro α y ys p r hlen _ _ _ _
    have hqlen : (y :: ys).length = (p.map (fun w => w / p.sum)).length := by
      simpa using hlen
    have hcdf := cdfLoop_eq_firstExceedIdx y (y :: ys) (p.map (fun w => w / p.sum)) r 0
      hqlen (by simp)
    rw [sub_zero] at hcdf
    simp only [sample, if_neg (not_not_intro hlen)]
    rw [hcdf]
  · intro α u v z r hr0 hr1
    have h1 : ¬ r < 0 := not_lt.mpr hr0
    constructor
    · norm_num [sample, cdfLoop, hr1]
    · norm_num [sample, cdfLoop, h1, hr1]

/-- Witness for claim C7 at the concrete draw `r = 1/2`. -/
theorem sample_inverse_cdf_w :
    sample ["a", "b", "c"] [1, 0, 0] (1/2 : ℚ) = Except.ok "a" ∧
    sample ["a", "b", "c"] [0, 0, 1] (1/2 : ℚ) = Except.ok "c" :=
  ⟨(sample_inverse_cdf.2 String "a" "b" "c" (1/2) (by norm_num) (by norm_num)).1,
   (sample_inverse_cdf.2 String "a" "b" "c" (1/2) (by norm_num) (by norm_num)).2⟩

/-! ### Claim C4 -/

/-- With an all-zero weight list and a non-negative draw, no cumulative sum
ever exceeds the draw, so the selected index is the fallback last index. -/
theorem firstExceedIdx_all_zero (q : List ℚ) :
    ∀ r : ℚ, (∀ w ∈ q, w = 0) → 0 ≤ r → firstExceedIdx q r = q.length - 1 := by
  induction q with
  | nil => intro r _ _; rfl
  | cons w ws ih =>
    intro r h hr
    have hw : w = 0 := h w (by simp)
    have hnot : ¬ r < w := by rw [hw]; exact not_lt.mpr hr
    cases ws with
    | nil => simp [firstExceedIdx, hnot]
    | cons w2 ws2 =>
      have hzero : ∀ u ∈ w2 :: ws2, u = 0 := fun u hu => h u (List.mem_cons_of_mem _ hu)
      have hr2 : 0 ≤ r - w := by rw [hw]; simpa using hr
      have hrec := ih (r - w) hzero hr2
      have hstep : firstExceedIdx (w :: w2 :: ws2) r =
          if r < w then 0 else firstExceedIdx (w2 :: ws2) (r - w) + 1 := rfl
      rw [hstep, if_neg hnot, hrec]
      simp only [List.length_cons]
      omega

/-- Indexing a non-empty list at its last position is `getLastD`. -/
theorem getD_length_sub_one {α : Type} (x : α) (l : List α) (h : l ≠ []) :
    l.getD (l.length - 1) x = l.getLastD x := by
  induction l with
  | nil => cases h rfl
  | cons y ys ih =>
    cases ys with
    | nil => rfl
    | cons z zs =>
      have hrec := ih (by simp)
      simpa using hrec

/-- Claim C4 (amended): `sample` raises `Exception('a != p')` exactly on a
length mismatch; an all-zero weight vector is *not* rejected — the normalized
weights are never exceeded by a draw `r ≥ 0` and the call silently returns the
last outcome (in numpy the zero-sum division yields NaN weights with the same
effect); every equal-length non-empty call returns some outcome normally. -/
theorem sample_error_cases :
    (∀ (α : Type) (a : List α) (p : List ℚ) (r : ℚ), a.length ≠ p.length →
      sample a p r = Except.error "a != p") ∧
    (∀ (α : Type) (y : α) (ys : List α) (p : List ℚ) (r : ℚ),
      (y :: ys).length = p.length → (∀ w ∈ p, w = 0) → 0 ≤ r →
      sample (y :: ys) p r = Except.ok ((y :: ys).getLastD y)) ∧
    (∀ (α : Type) (y : α) (ys : List α) (p : List ℚ) (r : ℚ),
      (y :: ys).length = p.length → ∃ u, sample (y :: ys) p r = Except.ok u) := by
  refine ⟨?_, ?_, ?_⟩
  · intro α a p r h
    simp [sample, h]
  · intro α y ys p r hlen hzero hr
    have hqlen : (y :: ys).length = (p.map (fun w => w / p.sum)).length := by
      simpa using hlen
    have hqzero : ∀ u ∈ p.map (fun w => w / p.sum), u = 0 := by
      intro u hu
      obtain ⟨w, hw, rfl⟩ := List.mem_map.mp hu
      rw [hzero w hw, zero_div]
    have hcdf := cdfLoop_eq_firstExceedIdx y (y :: ys) (p.map (fun w => w / p.sum)) r 0
      hqlen (by simp)
    rw [sub_zero, firstExceedIdx_all_zero _ r hqzero hr] at hcdf
    simp only [sample, if_neg (not_not_intro hlen)]
    rw [hcdf]
    rw [show (p.map (fun w => w / p.sum)).length - 1 = (y :: ys).length - 1 by

      simp [← hqlen]]
    rw [getD_length_sub_one y (y :: ys) (by simp)]
  · intro α y ys p r hlen
    have hqlen : (y :: ys).length = (p.map (fun w => w / p.sum)).length := by
      simpa using hlen
    have hcdf := cdfLoop_eq_firstExceedIdx y (y :: ys) (p.map (fun w => w / p.sum)) r 0
      hqlen (by simp)
    rw [sub_zero] at hcdf
    refine ⟨(y :: ys).getD (firstExceedIdx (p.map (fun w => w / p.sum)) r) y, ?_⟩
    simp only [sample, if_neg (not_not_intro hlen)]
    rw [hcdf]

/-- Claim C4, counterexample: the all-zero weight vector `[0, 0]` does not
make `sample` fail; the call returns the last outcome `"b"`. -/
theorem sample_all_zero_no_error :
    sample ["a", "b"] [0, 0] (1/2 : ℚ) = Except.ok "b" := by
  norm_num [sample, cdfLoop]

/-- Witness for the amended claim C4 at concrete inputs: a length mismatch, an
all-zero weight vector, and a well-formed call. -/
theorem sample_error_cases_w :
    sample ["a", "b"] [0, 0, 1] (1/2 : ℚ) = Except.error "a != p" ∧
    sample ["a", "b", "c"] [0, 0, 0] (1/4 : ℚ) =
      Except.ok (["a", "b", "c"].getLastD "a") ∧
    ∃ u, sample ["a", "b"] [3, 1] (1/4 : ℚ) = Except.ok u :=
  ⟨sample_error_cases.1 String ["a", "b"] [0, 0, 1] (1/2) (by norm_num),
   sample_error_cases.2.1 String "a" ["b", "c"] [0, 0, 0] (1/4) (by norm_num)
     (by norm_num) (by norm_num),
   sample_error_cases.2.2 String "a" ["b"] [3, 1] (1/4) (by norm_num)⟩

/-! ### Claim C9 -/

/-- Elementwise division distributes over a list sum. -/
theorem list_sum_map_div (l : List ℚ) (c : ℚ) :
    (l.map (fun v => v / c)).sum = l.sum / c := by
  induction l with
  | nil => simp
  | cons y ys ih => simp [ih, add_div]

/-- Claim C9: for a non-empty input and a strictly positive annealed
exponential `φ` (the composition `np.power(np.exp(·), temp)` for `temp > 0`),
every entry of `lognormalize` is non-negative and the entries sum to 1 within
`1e-9` (exactly 1 in exact arithmetic). -/
theorem lognormalize_nonneg_sum_one (φ : ℚ → ℚ) (x : List ℚ)
    (hne : x ≠ []) (hφ : ∀ y, 0 < φ y) :
    (∀ v ∈ lognormalize φ x, 0 ≤ v) ∧
    |(lognormalize φ x).sum - 1| ≤ 1 / 1000000000 := by
  have key : ∀ xp : List ℚ, xp ≠ [] → (∀ v ∈ xp, 0 < v) →
      (∀ v ∈ xp.map (fun v => v / xp.sum), 0 ≤ v) ∧
      |(xp.map (fun v => v / xp.sum)).sum - 1| ≤ 1 / 1000000000 := by
    intro xp hxpne hpos
    have hsum : 0 < xp.sum := List.sum_pos xp hpos hxpne
    constructor
    · intro v hv
      obtain ⟨e, he, rfl⟩ := List.mem_map.mp hv
      exact le_of_lt (div_pos (hpos e he) hsum)
    · rw [list_sum_map_div, div_self (ne_of_gt hsum)]
      norm_num
  exact key (x.map (fun xi => φ (xi - x.foldr max (x.getD 0 0))))
    (by simpa using hne)
    (by
      intro v hv
      obtain ⟨xi, _, rfl⟩ := List.mem_map.mp hv
      exact hφ _)

/-- Witness for claim C9 with the constant positive `φ` and the input
`[0, 1]`. -/
theorem lognormalize_nonneg_sum_one_w :
    (∀ v ∈ lognormalize (fun _ => 1) [0, 1], 0 ≤ v) ∧
    |(lognormalize (fun _ => 1) [0, 1]).sum - 1| ≤ 1 / 1000000000 :=
  lognormalize_nonneg_sum_one (fun _ => 1) [0, 1] (by simp) (fun _ => one_pos)

/-! ### Claim C10 -/

/-- Claim C10: the initializing `better_sample` call (no best recorded yet)
leaves the no-improvement counter and the improvement history untouched. -/
theorem initial_update_preserves_monitor (lp : ℚ → ℚ × ℚ) (r : Nat) (s : SState)
    (h : s.best_ref = none) :
    (better_sample lp r s).2.no_improv = s.no_improv ∧
    (better_sample lp r s).2.best_diff = s.best_diff := by
  rw [better_sample_eq_none lp r s h]
  exact ⟨rfl, rfl⟩

/-- Witness for claim C10 at the concrete fresh state `s0`. -/
theorem initial_update_preserves_monitor_w :
    (better_sample base_logprob 0 s0).2.no_improv = s0.no_improv ∧
    (better_sample base_logprob 0 s0).2.best_diff = s0.best_diff :=
  initial_update_preserves_monitor base_logprob 0 s0 rfl

end CLSampler
